import Mathlib

/-!
Verification of the deet debugger (Rust sources: src/main.rs, src/debugger.rs,
src/inferior.rs) against its natural-language specification.

The tracee's memory is modelled as a byte map `Nat → Nat` (values < 256); the
word-oriented ptrace memory interface composes and decomposes 8-byte
little-endian words over it.  Machine integers (`usize`/`u64`) are modelled as
`Nat` with explicit `2 ^ 64` bounds; Rust's `!x` on `u64` is `x ^^^ (2 ^ 64 - 1)`.
-/

namespace Deet

/-- Tracee memory: byte stored at each absolute virtual address. -/
abbrev Mem := Nat → Nat

/-- Well-formedness: every cell holds one byte. -/
def MemWF (mem : Mem) : Prop := ∀ a, mem a < 2 ^ 8

/-- From src/inferior.rs, `align_addr_to_word`:
`addr & (-(size_of::<usize>() as isize) as usize)`; on x86-64 the mask
`-(8 : isize) as usize` is `2 ^ 64 - 8`. -/
def align_addr_to_word (addr : Nat) : Nat :=
  addr &&& (2 ^ 64 - 8)

/-- Model of `ptrace::read`: the little-endian 8-byte word at `base`. -/
def ptraceRead (mem : Mem) (base : Nat) : Nat :=
  mem base + mem (base + 1) * 2 ^ 8 + mem (base + 2) * 2 ^ 16 + mem (base + 3) * 2 ^ 24 +
    mem (base + 4) * 2 ^ 32 + mem (base + 5) * 2 ^ 40 + mem (base + 6) * 2 ^ 48 +
    mem (base + 7) * 2 ^ 56

/-- Model of `ptrace::write`: replace the 8 bytes of the word at `base` by the
little-endian bytes of `w`. -/
def ptraceWrite (mem : Mem) (base w : Nat) : Mem :=
  fun a => if base ≤ a ∧ a < base + 8 then (w >>> (8 * (a - base))) &&& 0xff else mem a

/-- From src/inferior.rs, `Inferior::write_byte` (the `pid` argument carries no
information in this model; memory is passed explicitly).  Returns the updated
memory together with `orig_byte`. -/
def write_byte (mem : Mem) (addr : Nat) (val : Nat) : Mem × Nat :=
  let aligned_addr := align_addr_to_word addr
  let byte_offset := addr - aligned_addr
  let word := ptraceRead mem aligned_addr
  let orig_byte := (word >>> (8 * byte_offset)) &&& 0xff
  let masked_word := word &&& ((0xff <<< (8 * byte_offset)) ^^^ (2 ^ 64 - 1))
  let updated_word := masked_word ||| (val <<< (8 * byte_offset))
  (ptraceWrite mem aligned_addr updated_word, orig_byte)

/-- The spec's `read_byte(A)`: extract the byte at `A` from the ptrace word
containing it (the read half of the patch procedure of §4.1). -/
def read_byte (mem : Mem) (addr : Nat) : Nat :=
  (ptraceRead mem (align_addr_to_word addr) >>> (8 * (addr - align_addr_to_word addr))) &&& 0xff

/-- A concrete memory whose every byte is 0x90 (NOP), used as witness input. -/
def mem90 : Mem := fun _ => 0x90

/-- Signals relevant to the debugger (`nix::sys::signal::Signal`). -/
inductive Signal where
  | SIGTRAP
  | SIGKILL
  | SIGINT
  | otherSig (n : Nat)
deriving DecidableEq

/-- From src/inferior.rs, `enum Status`. -/
inductive Status where
  | Stopped (sig : Signal) (rip : Nat)
  | Exited (code : Int)
  | Signaled (sig : Signal)
deriving DecidableEq

/-- `Result<Status, nix::Error>` as returned by `Inferior::wait`; the error
payload carries no information in this model. -/
abbrev WaitResult := Except Unit Status

/-- The Breakpoint Byte Table (`HashMap<usize, u8>` in src/inferior.rs),
modelled as an association list without duplicate keys. -/
abbrev BpMap := List (Nat × Nat)

def bpLookup : BpMap → Nat → Option Nat
  | [], _ => none
  | (k, v) :: rest, a => if k = a then some v else bpLookup rest a

/-- `HashMap::insert`: overwrite the binding of `k` if present, else append. -/
def bpInsert : BpMap → Nat → Nat → BpMap
  | [], k, v => [(k, v)]
  | (k', v') :: rest, k, v =>
      if k' = k then (k, v) :: rest else (k', v') :: bpInsert rest k v

/-- From src/inferior.rs, `struct Inferior`.  The OS child is represented by
the observable tracee state this development needs: its byte memory and the
instruction pointer of its stopped registers; `breakpoint_map` is the field of
the Rust struct. -/
structure Inferior where
  mem : Mem
  rip : Nat
  breakpoint_map : BpMap

/-- From src/inferior.rs, `Inferior::install_breakpoints`: for each address in
the list, patch `0xCC` over it and insert the byte returned by `write_byte`
into the Breakpoint Byte Table. -/
def install_breakpoints (inf : Inferior) (breakpoints : List Nat) : Inferior :=
  breakpoints.foldl
    (fun i x =>
      let r := write_byte i.mem x 0xCC
      { mem := r.1, rip := i.rip, breakpoint_map := bpInsert i.breakpoint_map x r.2 })
    inf

/-- From src/inferior.rs, `Inferior::new`, success path: the spawned child is
stopped at its entry trap (`Stopped(SIGTRAP, _)`) with memory `mem0` and
instruction pointer `rip0`, and the initial breakpoints are installed into an
empty Byte Table.  Spawn failure (`None`) is a caller-side case (see
`runCommand`). -/
def Inferior.new (mem0 : Mem) (rip0 : Nat) (breakpoints : List Nat) : Inferior :=
  install_breakpoints { mem := mem0, rip := rip0, breakpoint_map := [] } breakpoints

/-- The test `matches!(status, Ok(Stopped(SIGTRAP, _)))` performed by
`Inferior::go` on the single-step wait result. -/
def isTrapStop : WaitResult → Bool
  | Except.ok (Status.Stopped Signal.SIGTRAP _) => true
  | _ => false

/-- Observable ptrace requests issued by `Inferior::go`, in order. -/
inductive PtraceEvent where
  | getRegs
  | writeByteEv (addr val : Nat)
  | setRegs (rip : Nat)
  | singleStep
  | contEv
  | waitEv
deriving DecidableEq

structure GoResult where
  inf : Inferior
  events : List PtraceEvent
  ret : WaitResult

/-- From src/inferior.rs, `Inferior::go`.  The results of the two `waitpid`
calls are oracle inputs `w1` (after the single step) and `w2` (after the
continue): they are decided by the OS and the tracee.  ptrace memory writes
are modelled by `write_byte` on the tracee memory. -/
def go (inf : Inferior) (w1 w2 : WaitResult) : GoResult :=
  match bpLookup inf.breakpoint_map (inf.rip - 1) with
  | some byte =>
      let addr := inf.rip - 1
      let mem1 := (write_byte inf.mem addr byte).1
      let mem2 := if isTrapStop w1 then (write_byte mem1 addr 0xCC).1 else mem1
      { inf := { mem := mem2, rip := addr, breakpoint_map := inf.breakpoint_map },
        events :=
          [PtraceEvent.getRegs, PtraceEvent.writeByteEv addr byte, PtraceEvent.setRegs addr,
            PtraceEvent.singleStep, PtraceEvent.waitEv] ++
          (if isTrapStop w1 then [PtraceEvent.writeByteEv addr 0xCC] else []) ++
          [PtraceEvent.contEv, PtraceEvent.waitEv],
        ret := w2 }
  | none =>
      { inf := inf,
        events := [PtraceEvent.getRegs, PtraceEvent.contEv, PtraceEvent.waitEv],
        ret := w2 }

/-- Strings are modelled as lists of characters. -/
abbrev Str := List Char

/-- The messages the Session prints, as structured values. -/
inductive OutMsg where
  | childExited (code : Int)
  | childStopped (sig : Signal)
  | stoppedAtLine (line : Str)
  | continueFails
  | errorStartingSubprocess
  | notBeingRun
  | setBreakpoint (n addr : Nat)
  | invalidAddress
  | invalidTarget
deriving DecidableEq

/-- From src/debugger.rs, `Debugger::print_status`.  `get_line_from_addr` is
the Debug-Info Oracle's line lookup (external `DwarfData`).  Returns the value
the Rust method returns together with the printed messages. -/
def print_status (get_line_from_addr : Nat → Option Str) :
    Option Status → Option Status × List OutMsg
  | some (Status.Exited code) => (some (Status.Exited code), [OutMsg.childExited code])
  | some (Status.Stopped sig rip) =>
      (some (Status.Stopped sig rip),
        OutMsg.childStopped sig ::
          (match get_line_from_addr rip with
           | some line => [OutMsg.stoppedAtLine line]
           | none => []))
  | none => (none, [OutMsg.continueFails])
  | some (Status.Signaled _) => (none, [])

/-- From src/debugger.rs, the status handling shared by the `Run` and
`Continue` arms: `if let Some(Status::Exited(_)) = self.print_status(status)
{ self.inferior = None; }`. -/
def processGoStatus (get_line_from_addr : Nat → Option Str) (inferior : Option Inferior)
    (status : Option Status) : Option Inferior × List OutMsg :=
  let r := print_status get_line_from_addr status
  match r.1 with
  | some (Status.Exited _) => (none, r.2)
  | _ => (inferior, r.2)

/-- Observable process-level actions of the `Run` command arm, in order.
`killOld` stands for `kill()` on the previous inferior, which sends `SIGKILL`
and then reaps it with `wait`; `replaceInferior` is the assignment
`self.inferior = Some(inferior)`. -/
inductive RunEvent where
  | spawnNew
  | killOld
  | replaceInferior
  | goCall
deriving DecidableEq

structure RunOutcome where
  inferior : Option Inferior
  events : List RunEvent
  msgs : List OutMsg

/-- From src/debugger.rs, the `DebuggerCommand::Run` arm.  `spawnResult` is
the value of `Inferior::new(&self.target, &args, &self.break_points)` (`none`
on spawn failure); `old` is `self.inferior` before the command; `w1, w2` are
the wait oracles consumed by `go`. -/
def runCommand (get_line_from_addr : Nat → Option Str) (old : Option Inferior)
    (spawnResult : Option Inferior) (w1 w2 : WaitResult) : RunOutcome :=
  match spawnResult with
  | some inferior =>
      let killEvents := if old.isSome then [RunEvent.killOld] else []
      let g := go inferior w1 w2
      let p := processGoStatus get_line_from_addr (some g.inf) g.ret.toOption
      { inferior := p.1,
        events := RunEvent.spawnNew :: killEvents ++ [RunEvent.replaceInferior, RunEvent.goCall],
        msgs := p.2 }
  | none =>
      { inferior := old, events := [RunEvent.spawnNew],
        msgs := [OutMsg.errorStartingSubprocess] }

/-- What becomes of the session after the `Backtrace` command arm. -/
inductive BacktraceOutcome where
  | promptAgain (msgs : List OutMsg)
  | crashed
deriving DecidableEq

/-- From src/debugger.rs, the `DebuggerCommand::Backtrace` arm.  `btResult` is
the `Result<(), nix::Error>` returned by `Inferior::print_backtrace` (an
`Err` arises from a failed `ptrace::getregs` or tracee memory read during the
frame walk).  The source calls `.expect("")` on it, which panics on `Err`. -/
def backtraceCommand (inferior : Option Inferior) (btResult : Except Unit Unit) :
    BacktraceOutcome :=
  match inferior with
  | none => BacktraceOutcome.promptAgain [OutMsg.notBeingRun]
  | some _ =>
      match btResult with
      | Except.ok _ => BacktraceOutcome.promptAgain []
      | Except.error _ => BacktraceOutcome.crashed

/-- Hexadecimal digit value of a character, as `usize::from_str_radix(_, 16)`
accepts it. -/
def hexDigitVal? (c : Char) : Option Nat :=
  if '0' ≤ c ∧ c ≤ '9' then some (c.toNat - ('0').toNat)
  else if 'a' ≤ c ∧ c ≤ 'f' then some (c.toNat - ('a').toNat + 10)
  else if 'A' ≤ c ∧ c ≤ 'F' then some (c.toNat - ('A').toNat + 10)
  else none

/-- Decimal digit value of a character. -/
def decDigitVal? (c : Char) : Option Nat :=
  if '0' ≤ c ∧ c ≤ '9' then some (c.toNat - ('0').toNat) else none

/-- Digit-accumulation loop of `from_str_radix` for an unsigned 64-bit type:
fails on a non-digit and on overflow past `2 ^ 64 - 1`. -/
def parseDigitsAux (digitVal? : Char → Option Nat) (radix : Nat) : Str → Nat → Option Nat
  | [], acc => some acc
  | c :: cs, acc =>
      match digitVal? c with
      | some d =>
          if acc * radix + d < 2 ^ 64 then parseDigitsAux digitVal? radix cs (acc * radix + d)
          else none
      | none => none

/-- Model of `usize::from_str_radix` (and of `str::parse::<usize>`, which is
`from_str_radix(_, 10)`): an optional leading `+` (a `-` is rejected for an
unsigned type), then a non-empty digit string. -/
def from_str_radix (digitVal? : Char → Option Nat) (radix : Nat) (s : Str) : Option Nat :=
  match s with
  | [] => none
  | c :: cs =>
      if c = '+' then
        match cs with
        | [] => none
        | _ :: _ => parseDigitsAux digitVal? radix cs 0
      else parseDigitsAux digitVal? radix (c :: cs) 0

/-- `target.parse::<usize>()` from src/debugger.rs. -/
def parse_usize (s : Str) : Option Nat := from_str_radix decDigitVal? 10 s

/-- From src/debugger.rs, `Debugger::parse_address`: strip a leading `0x`
(case-insensitively; `&addr[2..]` drops two one-byte characters), then parse
as hexadecimal. -/
def parse_address (addr : Str) : Option Nat :=
  let addr_without_0x :=
    if (addr.map Char.toLower).take 2 = ['0', 'x'] then addr.drop 2 else addr
  from_str_radix hexDigitVal? 16 addr_without_0x

/-- `target.starts_with('*')` from src/debugger.rs. -/
def startsWithStar (s : Str) : Bool :=
  match s with
  | c :: _ => c = '*'
  | [] => false

/-- The Debug-Info Oracle interface consumed by the `Breakpoint` arm
(external `DwarfData`; the `Option Str` argument is the compilation-unit
file, passed as `None` at every call site). -/
structure BreakOracle where
  get_addr_for_line : Option Str → Nat → Option Nat
  find_function : Str → Option Str
  get_addr_for_function : Option Str → Str → Option Nat

/-- The success action repeated in each resolution branch of the `Breakpoint`
arm: `self.break_points.push(addr)` followed by
`println!("Set breakpoint {} at {:#x}", self.break_points.len()-1, addr)`. -/
def record_breakpoint (break_points : List Nat) (addr : Nat) : List Nat × List OutMsg :=
  let bps := break_points ++ [addr]
  (bps, [OutMsg.setBreakpoint (bps.length - 1) addr])

/-- From src/debugger.rs, the `DebuggerCommand::Breakpoint(target)` arm,
without the trailing live-install step (see `breakpointCommandLive`). -/
def breakpointCommand (dd : BreakOracle) (target : Str) (break_points : List Nat) :
    List Nat × List OutMsg :=
  if startsWithStar target then
    match parse_address (target.drop 1) with
    | some addr => record_breakpoint break_points addr
    | none => (break_points, [OutMsg.invalidAddress])
  else
    match parse_usize target with
    | some line_no =>
        match dd.get_addr_for_line none line_no with
        | some addr => record_breakpoint break_points addr
        | none => (break_points, [])
    | none =>
        match dd.find_function target with
        | some function =>
            match dd.get_addr_for_function none function with
            | some addr => record_breakpoint break_points addr
            | none => (break_points, [])
        | none => (break_points, [OutMsg.invalidTarget])

/-- The `Breakpoint` arm while an inferior is live: after the branch above,
`if self.inferior.is_some() { ... install_breakpoints(&self.break_points) }`
re-installs the whole breakpoint list into the live inferior. -/
def breakpointCommandLive (dd : BreakOracle) (target : Str) (break_points : List Nat)
    (inf : Inferior) : (List Nat × List OutMsg) × Inferior :=
  let r := breakpointCommand dd target break_points
  (r, install_breakpoints inf r.1)

/-- Outcome of the argument handling at the top of `main`
(src/main.rs lines 10-17). -/
inductive MainOutcome where
  | usageExit (code : Int)
  | indexOutOfBounds
  | proceed (target : Str) (print_info : Bool) (warning : Option Str)
deriving DecidableEq

/-- From src/main.rs: reject argument counts other than 2 and 3 with a usage
message and exit status 1; otherwise read `args[1]` as the target and
unconditionally index `args[2]` — `indexOutOfBounds` is the panic of a
`Vec` index past the end. -/
def mainArgs (args : List Str) : MainOutcome :=
  if args.length ≠ 2 ∧ args.length ≠ 3 then MainOutcome.usageExit 1
  else
    match args[1]?, args[2]? with
    | some target, some arg2 =>
        if arg2 = ['-', 'i'] then MainOutcome.proceed target true none
        else MainOutcome.proceed target false (some arg2)
    | some _, none => MainOutcome.indexOutOfBounds
    | none, _ => MainOutcome.indexOutOfBounds

/-- A concrete inferior used in concrete evaluations: all-`0x90` memory,
stopped at `rip = 0`, empty Byte Table. -/
def inf0 : Inferior := { mem := mem90, rip := 0, breakpoint_map := [] }

/-- A concrete Debug-Info Oracle that resolves nothing. -/
def ddNone : BreakOracle :=
  { get_addr_for_line := fun _ _ => none
    find_function := fun _ => none
    get_addr_for_function := fun _ _ => none }

/-- A concrete oracle mapping every name to itself as a function handle but
yielding no addresses at all. -/
def ddNoAddr : BreakOracle :=
  { get_addr_for_line := fun _ _ => none
    find_function := fun s => some s
    get_addr_for_function := fun _ _ => none }

theorem testBit_of_lt {x n i : Nat} (hx : x < 2 ^ n) (hi : n ≤ i) : x.testBit i = false :=
  Nat.testBit_lt_two_pow (lt_of_lt_of_le hx (Nat.pow_le_pow_right (by norm_num) hi))

theorem align_eq_div_mul (addr : Nat) (h : addr < 2 ^ 64) :
    align_addr_to_word addr = addr / 8 * 8 := by
  have h8 : addr / 8 * 8 = (addr >>> 3) <<< 3 := by
    rw [Nat.shiftRight_eq_div_pow, Nat.shiftLeft_eq]
  have hm : (2 ^ 64 - 8 : Nat) = (2 ^ 61 - 1) <<< 3 := by
    rw [Nat.shiftLeft_eq]; norm_num
  rw [align_addr_to_word, h8, hm]
  apply Nat.eq_of_testBit_eq
  intro i
  simp only [Nat.testBit_and, Nat.testBit_shiftLeft, Nat.testBit_shiftRight,
    Nat.testBit_two_pow_sub_one, ge_iff_le]
  rcases Nat.lt_or_ge i 3 with hi | hi
  · simp [Nat.not_le.mpr hi]
  · rcases Nat.lt_or_ge i 64 with hi64 | hi64
    · have h3 : 3 + (i - 3) = i := by omega
      have h61 : i - 3 < 61 := by omega
      simp [hi, h3, h61]
    · have hb : addr.testBit i = false := testBit_of_lt h hi64
      have hb' : addr.testBit (3 + (i - 3)) = false := by
        have : 3 + (i - 3) = i := by omega
        rw [this]; exact hb
      simp [hi, hb', hb]

theorem ptraceRead_lt (mem : Mem) (base : Nat) (hwf : MemWF mem) :
    ptraceRead mem base < 2 ^ 64 := by
  have h0 := hwf base
  have h1 := hwf (base + 1)
  have h2 := hwf (base + 2)
  have h3 := hwf (base + 3)
  have h4 := hwf (base + 4)
  have h5 := hwf (base + 5)
  have h6 := hwf (base + 6)
  have h7 := hwf (base + 7)
  rw [ptraceRead]
  norm_num at h0 h1 h2 h3 h4 h5 h6 h7 ⊢
  omega

theorem ptraceRead_byte (mem : Mem) (base k : Nat) (hwf : MemWF mem) (hk : k < 8) :
    (ptraceRead mem base >>> (8 * k)) &&& 0xff = mem (base + k) := by
  have h255 : (0xff : Nat) = 2 ^ 8 - 1 := by norm_num
  rw [h255, Nat.and_pow_two_sub_one_eq_mod, Nat.shiftRight_eq_div_pow]
  have h0 := hwf base
  have h1 := hwf (base + 1)
  have h2 := hwf (base + 2)
  have h3 := hwf (base + 3)
  have h4 := hwf (base + 4)
  have h5 := hwf (base + 5)
  have h6 := hwf (base + 6)
  have h7 := hwf (base + 7)
  rw [ptraceRead]
  norm_num at h0 h1 h2 h3 h4 h5 h6 h7 ⊢
  interval_cases k <;> norm_num <;> omega

theorem updated_word_testBit (word val k n : Nat) (hw : word < 2 ^ 64) (hv : val < 2 ^ 8)
    (hk : k < 8) :
    ((word &&& ((0xff <<< (8 * k)) ^^^ (2 ^ 64 - 1))) ||| (val <<< (8 * k))).testBit n =
      (if 8 * k ≤ n ∧ n < 8 * k + 8 then val.testBit (n - 8 * k) else word.testBit n) := by
  have h255 : (0xff : Nat) = 2 ^ 8 - 1 := by norm_num
  rw [h255]
  simp only [Nat.testBit_or, Nat.testBit_and, Nat.testBit_xor, Nat.testBit_shiftLeft,
    Nat.testBit_two_pow_sub_one, ge_iff_le]
  by_cases h1 : 8 * k ≤ n
  · by_cases h2 : n < 8 * k + 8
    · have hn64 : n < 64 := by omega
      have hd : n - 8 * k < 8 := by omega
      simp [h1, h2, hn64, hd]
    · have hvb : val.testBit (n - 8 * k) = false := testBit_of_lt hv (by omega)
      by_cases h64 : n < 64
      · have hd : ¬ n - 8 * k < 8 := by omega
        simp [h1, h2, h64, hd, hvb]
      · have hwb : word.testBit n = false := testBit_of_lt hw (by omega)
        simp [h1, h2, h64, hwb, hvb]
  · have hn64 : n < 64 := by omega
    have hc : ¬ (8 * k ≤ n ∧ n < 8 * k + 8) := by omega
    simp [h1, hn64, hc]

theorem updated_word_byte (word val k j : Nat) (hw : word < 2 ^ 64) (hv : val < 2 ^ 8)
    (hk : k < 8) :
    (((word &&& ((0xff <<< (8 * k)) ^^^ (2 ^ 64 - 1))) ||| (val <<< (8 * k))) >>> (8 * j)) &&&
        0xff =
      if j = k then val else (word >>> (8 * j)) &&& 0xff := by
  have h255 : (0xff : Nat) = 2 ^ 8 - 1 := by norm_num
  by_cases hjk : j = k
  · subst hjk
    rw [if_pos rfl]
    apply Nat.eq_of_testBit_eq
    intro i
    simp only [Nat.testBit_and, Nat.testBit_shiftRight]
    rw [updated_word_testBit word val j (8 * j + i) hw hv hk]
    by_cases hi : i < 8
    · have hc : 8 * j ≤ 8 * j + i ∧ 8 * j + i < 8 * j + 8 := by omega
      have hsub : 8 * j + i - 8 * j = i := by omega
      rw [if_pos hc, hsub, h255, Nat.testBit_two_pow_sub_one]
      simp [hi]
    · have hff : (0xff : Nat).testBit i = false := by
        rw [h255, Nat.testBit_two_pow_sub_one]; simp [hi]
      rw [hff, Bool.and_false]
      exact (testBit_of_lt hv (by omega)).symm
  · rw [if_neg hjk]
    apply Nat.eq_of_testBit_eq
    intro i
    simp only [Nat.testBit_and, Nat.testBit_shiftRight]
    rw [updated_word_testBit word val k (8 * j + i) hw hv hk]
    by_cases hi : i < 8
    · have hc : ¬ (8 * k ≤ 8 * j + i ∧ 8 * j + i < 8 * k + 8) := by omega
      rw [if_neg hc]
    · have hff : (0xff : Nat).testBit i = false := by
        rw [h255, Nat.testBit_two_pow_sub_one]; simp [hi]
      simp only [hff, Bool.and_false]

theorem write_byte_spec (mem : Mem) (addr val : Nat) (hwf : MemWF mem)
    (ha : addr < 2 ^ 64) (hv : val < 2 ^ 8) :
    (write_byte mem addr val).2 = mem addr ∧
      ∀ a, (write_byte mem addr val).1 a = if a = addr then val else mem a := by
  have halign : align_addr_to_word addr = addr / 8 * 8 := align_eq_div_mul addr ha
  have hle : align_addr_to_word addr ≤ addr := by omega
  have hlt : addr < align_addr_to_word addr + 8 := by omega
  have hoff : addr - align_addr_to_word addr < 8 := by omega
  have hword : ptraceRead mem (align_addr_to_word addr) < 2 ^ 64 :=
    ptraceRead_lt mem (align_addr_to_word addr) hwf
  simp only [write_byte]
  constructor
  · rw [ptraceRead_byte mem (align_addr_to_word addr) (addr - align_addr_to_word addr) hwf hoff]
    congr 1
    omega
  · intro a
    simp only [ptraceWrite]
    by_cases hin : align_addr_to_word addr ≤ a ∧ a < align_addr_to_word addr + 8
    · rw [if_pos hin]
      rw [updated_word_byte (ptraceRead mem (align_addr_to_word addr)) val
        (addr - align_addr_to_word addr) (a - align_addr_to_word addr) hword hv hoff]
      by_cases heq : a - align_addr_to_word addr = addr - align_addr_to_word addr
      · have ha' : a = addr := by omega
        rw [if_pos heq, if_pos ha']
      · have ha' : a ≠ addr := by omega
        rw [if_neg heq, if_neg ha']
        rw [ptraceRead_byte mem (align_addr_to_word addr) (a - align_addr_to_word addr) hwf
          (by omega)]
        congr 1
        omega
    · rw [if_neg hin]
      have ha' : a ≠ addr := by omega
      rw [if_neg ha']

theorem read_byte_eq (mem : Mem) (addr : Nat) (hwf : MemWF mem) (ha : addr < 2 ^ 64) :
    read_byte mem addr = mem addr := by
  have halign : align_addr_to_word addr = addr / 8 * 8 := align_eq_div_mul addr ha
  have hoff : addr - align_addr_to_word addr < 8 := by omega
  rw [read_byte, ptraceRead_byte mem _ _ hwf hoff]
  congr 1
  omega

theorem write_byte_wf (mem : Mem) (addr val : Nat) (hwf : MemWF mem)
    (ha : addr < 2 ^ 64) (hv : val < 2 ^ 8) : MemWF (write_byte mem addr val).1 := by
  intro a
  rw [(write_byte_spec mem addr val hwf ha hv).2 a]
  split
  · exact hv
  · exact hwf a

/-- Claim C5: for every address `A` and byte value `v`, `write_byte(pid, A, v)`
reads the word at the aligned address `A & ~(W-1)` (which equals `A - A % 8`),
writes back that word with only the byte at offset `A - aligned` replaced by
`v` — every other byte of memory, in particular every other byte of the
containing word, is preserved — and returns the byte that previously occupied
`A`. -/
theorem write_byte_correct (mem : Mem) (A v : Nat) (hwf : MemWF mem)
    (hA : A < 2 ^ 64) (hv : v < 2 ^ 8) :
    align_addr_to_word A = A - A % 8 ∧
    (write_byte mem A v).2 = mem A ∧
    (write_byte mem A v).1 A = v ∧
    ∀ a, a ≠ A → (write_byte mem A v).1 a = mem a := by
  have hs := write_byte_spec mem A v hwf hA hv
  refine ⟨?_, hs.1, ?_, ?_⟩
  · have := align_eq_div_mul A hA
    omega
  · rw [hs.2 A, if_pos rfl]
  · intro a haA
    rw [hs.2 a, if_neg haA]

/-- Witness for C5: concrete memory `mem90`, address 5, byte `0xCC`. -/
theorem write_byte_correct_witness :
    (write_byte mem90 5 0xCC).2 = mem90 5 ∧ (write_byte mem90 5 0xCC).1 5 = 0xCC ∧
      (write_byte mem90 5 0xCC).1 6 = mem90 6 :=
  have h := write_byte_correct mem90 5 0xCC (fun _ => by norm_num [mem90]) (by norm_num)
    (by norm_num)
  ⟨h.2.1, h.2.2.1, h.2.2.2 6 (by norm_num)⟩

/-- Claim C8: the byte-patch round trip.  Reading the byte at `A`, patching
`0xCC` over it with `write_byte`, then writing back the byte the first patch
saved, restores the tracee's memory: reading the byte at `A` again yields the
original byte. -/
theorem byte_patch_round_trip (mem : Mem) (A : Nat) (hwf : MemWF mem) (hA : A < 2 ^ 64) :
    read_byte ((write_byte ((write_byte mem A 0xCC).1) A ((write_byte mem A 0xCC).2)).1) A =
      read_byte mem A ∧
    read_byte mem A = mem A := by
  have h1 := write_byte_spec mem A 0xCC hwf hA (by norm_num)
  have hwf1 : MemWF (write_byte mem A 0xCC).1 := by
    intro a
    rw [h1.2 a]
    split
    · norm_num
    · exact hwf a
  have hsv : (write_byte mem A 0xCC).2 = mem A := h1.1
  have h2 := write_byte_spec ((write_byte mem A 0xCC).1) A ((write_byte mem A 0xCC).2) hwf1 hA
    (by rw [hsv]; exact hwf A)
  have hwf2 : MemWF ((write_byte ((write_byte mem A 0xCC).1) A ((write_byte mem A 0xCC).2)).1) := by
    intro a
    rw [h2.2 a]
    split
    · rw [hsv]; exact hwf A
    · exact hwf1 a
  constructor
  · rw [read_byte_eq _ A hwf2 hA, read_byte_eq mem A hwf hA, h2.2 A, if_pos rfl, hsv]
  · exact read_byte_eq mem A hwf hA

/-- Witness for C8: concrete memory `mem90` and address 3. -/
theorem byte_patch_round_trip_witness :
    read_byte ((write_byte ((write_byte mem90 3 0xCC).1) 3 ((write_byte mem90 3 0xCC).2)).1) 3 =
      read_byte mem90 3 ∧
    read_byte mem90 3 = mem90 3 :=
  byte_patch_round_trip mem90 3 (fun _ => by norm_num [mem90]) (by norm_num)

/-- Claim C2: on a `go()` whose stopped instruction pointer satisfies
`rip - 1 ∈ Breakpoint Byte Table`, `go` performs, in order: restore the saved
original byte at `rip - 1`, set `rip := rip - 1`, single-step and wait,
re-patch `0xCC` at that address if and only if the single-step wait returned
`Stopped(SIGTRAP, _)`, then continue, wait again, and return that final wait's
result; the table entry for the address is never removed. -/
theorem go_breakpoint_dance (inf : Inferior) (w1 w2 : WaitResult) (byte : Nat)
    (h : bpLookup inf.breakpoint_map (inf.rip - 1) = some byte) :
    (go inf w1 w2).events =
      [PtraceEvent.getRegs, PtraceEvent.writeByteEv (inf.rip - 1) byte,
        PtraceEvent.setRegs (inf.rip - 1), PtraceEvent.singleStep, PtraceEvent.waitEv] ++
      (if isTrapStop w1 then [PtraceEvent.writeByteEv (inf.rip - 1) 0xCC] else []) ++
      [PtraceEvent.contEv, PtraceEvent.waitEv] ∧
    (go inf w1 w2).ret = w2 ∧
    (go inf w1 w2).inf.breakpoint_map = inf.breakpoint_map ∧
    bpLookup (go inf w1 w2).inf.breakpoint_map (inf.rip - 1) = some byte := by
  simp [go, h]

/-- Witness for C2: a table holding address 4 with saved byte `0x90`,
`rip = 5`, trap stop on the single step, exit on the continue. -/
theorem go_breakpoint_dance_witness :
    (go { mem := mem90, rip := 5, breakpoint_map := [(4, 0x90)] }
        (Except.ok (Status.Stopped Signal.SIGTRAP 5)) (Except.ok (Status.Exited 0))).events =
      [PtraceEvent.getRegs, PtraceEvent.writeByteEv 4 0x90, PtraceEvent.setRegs 4,
        PtraceEvent.singleStep, PtraceEvent.waitEv] ++
      (if isTrapStop (Except.ok (Status.Stopped Signal.SIGTRAP 5)) then
        [PtraceEvent.writeByteEv 4 0xCC] else []) ++
      [PtraceEvent.contEv, PtraceEvent.waitEv] ∧
    (go { mem := mem90, rip := 5, breakpoint_map := [(4, 0x90)] }
        (Except.ok (Status.Stopped Signal.SIGTRAP 5)) (Except.ok (Status.Exited 0))).ret =
      Except.ok (Status.Exited 0) ∧
    (go { mem := mem90, rip := 5, breakpoint_map := [(4, 0x90)] }
        (Except.ok (Status.Stopped Signal.SIGTRAP 5)) (Except.ok (Status.Exited 0))).inf.breakpoint_map =
      [(4, 0x90)] ∧
    bpLookup (go { mem := mem90, rip := 5, breakpoint_map := [(4, 0x90)] }
        (Except.ok (Status.Stopped Signal.SIGTRAP 5)) (Except.ok (Status.Exited 0))).inf.breakpoint_map
        (5 - 1) =
      some 0x90 :=
  go_breakpoint_dance { mem := mem90, rip := 5, breakpoint_map := [(4, 0x90)] }
    (Except.ok (Status.Stopped Signal.SIGTRAP 5)) (Except.ok (Status.Exited 0)) 0x90 (by decide)

/-- Claim C1 (violated by the code): spawning with a breakpoint at address 0
stores the original byte `0x90` in the Breakpoint Byte Table and patches
`0xCC` over it; but a further `break *8` command while that inferior is live
re-runs `install_breakpoints` over the whole list `[0, 8]`, whose `write_byte`
at the already-patched address 0 reads back `0xCC` and overwrites the stored
original byte: afterwards the table maps 0 to `0xCC`, not to `0x90`. -/
theorem install_breakpoints_overwrites_saved_byte :
    mem90 0 = 0x90 ∧
    bpLookup (Inferior.new mem90 0 [0]).breakpoint_map 0 = some 0x90 ∧
    (Inferior.new mem90 0 [0]).mem 0 = 0xCC ∧
    bpLookup
        (breakpointCommandLive ddNone (['*', '8']) [0] (Inferior.new mem90 0 [0])).2.breakpoint_map
        0 =
      some 0xCC := by
  refine ⟨rfl, ?_, ?_, ?_⟩ <;> decide

/-- Claim C4 (violated by the code): after `go()` returns `Signaled(sig)`,
`print_status` falls into its catch-all arm and returns `None`, so the
`if let Some(Status::Exited(_))` test fails and the Session retains the dead
inferior instead of discarding it; nothing is printed. -/
theorem signaled_retains_inferior (get_line_from_addr : Nat → Option Str) (inf : Inferior)
    (sig : Signal) :
    (processGoStatus get_line_from_addr (some inf) (some (Status.Signaled sig))).1 = some inf ∧
    (processGoStatus get_line_from_addr (some inf) (some (Status.Signaled sig))).2 = [] := by
  simp [processGoStatus, print_status]

/-- Claim C6 (violated by the code): with exactly 2 arguments the count check
passes, but `main` then evaluates `&args[2]`, an index one past the end of the
argument vector, and panics instead of proceeding to the prompt. -/
theorem main_two_args_out_of_bounds :
    ([(['d', 'e', 'e', 't']), (['p', 'r', 'o', 'g'])] : List Str).length = 2 ∧
    mainArgs ([(['d', 'e', 'e', 't']), (['p', 'r', 'o', 'g'])]) = MainOutcome.indexOutOfBounds := by
  exact ⟨rfl, rfl⟩

/-- Claim C7 (violated by the code): the `Backtrace` arm calls
`print_backtrace(...).expect("")`, so an `Err` from the frame walk (failed
register read or tracee memory read) panics the debugger instead of being
suppressed. -/
theorem backtrace_error_crashes :
    backtraceCommand (some inf0) (Except.error ()) = BacktraceOutcome.crashed := rfl

/-- Claim C3 (violated by the code): the `Run` arm evaluates `Inferior::new`
(the spawn) in the `if let` scrutinee before any kill of the old inferior.
On a `run` with a live inferior and a successful spawn, the event trace is
`[spawnNew, killOld, replaceInferior, goCall]`: the kill-and-reap does not
precede the spawn.  On a failed spawn the trace is `[spawnNew]` alone and the
old inferior is retained: it is not killed at all. -/
theorem run_kill_before_spawn_false :
    (¬ List.indexOf RunEvent.killOld
        (runCommand (fun _ => none) (some inf0) (some inf0) (Except.ok (Status.Exited 0))
            (Except.ok (Status.Exited 0))).events <
      List.indexOf RunEvent.spawnNew
        (runCommand (fun _ => none) (some inf0) (some inf0) (Except.ok (Status.Exited 0))
            (Except.ok (Status.Exited 0))).events) ∧
    (runCommand (fun _ => none) (some inf0) (some inf0) (Except.ok (Status.Exited 0))
        (Except.ok (Status.Exited 0))).events =
      [RunEvent.spawnNew, RunEvent.killOld, RunEvent.replaceInferior, RunEvent.goCall] ∧
    (runCommand (fun _ => none) (some inf0) none (Except.ok (Status.Exited 0))
        (Except.ok (Status.Exited 0))).events = [RunEvent.spawnNew] ∧
    (runCommand (fun _ => none) (some inf0) none (Except.ok (Status.Exited 0))
        (Except.ok (Status.Exited 0))).inferior = some inf0 :=
  ⟨by decide, rfl, rfl, rfl⟩

theorem record_breakpoint_msg (bps : List Nat) (n addr a : Nat)
    (h : (record_breakpoint bps a).2 = [OutMsg.setBreakpoint n addr]) :
    a = addr ∧ n = bps.length := by
  simp [record_breakpoint] at h
  obtain ⟨h1, h2⟩ := h
  exact ⟨h2, by omega⟩

theorem breakpoint_success_shape (dd : BreakOracle) (target : Str) (bps : List Nat)
    (n addr : Nat) (h : (breakpointCommand dd target bps).2 = [OutMsg.setBreakpoint n addr]) :
    breakpointCommand dd target bps = record_breakpoint bps addr ∧ n = bps.length := by
  unfold breakpointCommand at h ⊢
  cases hstar : startsWithStar target with
  | true =>
      simp only [hstar, if_true, List.drop_one] at h ⊢
      cases hp : parse_address (target.tail) with
      | some a =>
          simp only [hp] at h ⊢
          obtain ⟨ha, hn⟩ := record_breakpoint_msg bps n addr a h
          subst ha
          exact ⟨rfl, hn⟩
      | none => simp [hp] at h
  | false =>
      simp only [hstar, if_false, Bool.false_eq_true] at h ⊢
      cases hp : parse_usize target with
      | some line_no =>
          simp only [hp] at h ⊢
          cases hl : dd.get_addr_for_line none line_no with
          | some a =>
              simp only [hl] at h ⊢
              obtain ⟨ha, hn⟩ := record_breakpoint_msg bps n addr a h
              subst ha
              exact ⟨rfl, hn⟩
          | none => simp [hl] at h
      | none =>
          simp only [hp] at h ⊢
          cases hf : dd.find_function target with
          | some f =>
              simp only [hf] at h ⊢
              cases hg : dd.get_addr_for_function none f with
              | some a =>
                  simp only [hg] at h ⊢
                  obtain ⟨ha, hn⟩ := record_breakpoint_msg bps n addr a h
                  subst ha
                  exact ⟨rfl, hn⟩
              | none => simp [hg] at h
          | none => simp [hf] at h

/-- Claim C9: every `break` command that successfully resolves its target
(raw address, source line, or function name) appends the resolved address to
the breakpoint list and prints `Set breakpoint N at addr` with `N` the
0-based position of the appended address — the new list length minus one. -/
theorem breakpoint_index_correct (dd : BreakOracle) (target : Str) (break_points : List Nat)
    (n addr : Nat)
    (h : (breakpointCommand dd target break_points).2 = [OutMsg.setBreakpoint n addr]) :
    (breakpointCommand dd target break_points).1 = break_points ++ [addr] ∧
    n = break_points.length ∧
    (break_points ++ [addr])[n]? = some addr ∧
    n + 1 = (breakpointCommand dd target break_points).1.length := by
  obtain ⟨hshape, hn⟩ := breakpoint_success_shape dd target break_points n addr h
  subst hn
  refine ⟨?_, rfl, ?_, ?_⟩
  · rw [hshape, record_breakpoint]
  · exact List.getElem?_concat_length break_points addr
  · rw [hshape]
    simp [record_breakpoint]

/-- Witness for C9: `break *8` on the list `[7]` appends address 8 and
prints index 1. -/
theorem breakpoint_index_correct_witness :
    (breakpointCommand ddNone (['*', '8']) [7]).1 = [7] ++ [8] ∧
    1 = ([7] : List Nat).length ∧
    (([7] : List Nat) ++ [8])[1]? = some 8 ∧
    1 + 1 = (breakpointCommand ddNone (['*', '8']) [7]).1.length :=
  breakpoint_index_correct ddNone (['*', '8']) [7] 1 8 (by decide)

theorem parse_usize_not_star (target : Str) (ln : Nat) (h : parse_usize target = some ln) :
    startsWithStar target = false := by
  cases target with
  | nil => simp [parse_usize, from_str_radix] at h
  | cons c rest =>
      by_cases hc : c = '*'
      · subst hc
        simp only [parse_usize, from_str_radix] at h
        rw [if_neg (by decide : ¬ (('*' : Char) = '+'))] at h
        simp only [parseDigitsAux] at h
        rw [(by decide : decDigitVal? ('*') = none)] at h
        simp at h
      · simp [startsWithStar, hc]

/-- Claim C10: a `break` target that parses as a decimal line number for
which the oracle yields no address, and a target naming a known function for
which the oracle yields no entry address, both fall into branches whose
`if let` has no `else`: the Session prints nothing at all (not even
`Invalid breakpoint target.`) and the breakpoint list is unchanged. -/
theorem breakpoint_unresolved_silent (dd : BreakOracle) (target : Str)
    (break_points : List Nat) :
    (∀ ln, parse_usize target = some ln → dd.get_addr_for_line none ln = none →
        breakpointCommand dd target break_points = (break_points, [])) ∧
    (∀ f, startsWithStar target = false → parse_usize target = none →
        dd.find_function target = some f → dd.get_addr_for_function none f = none →
        breakpointCommand dd target break_points = (break_points, [])) := by
  constructor
  · intro ln hp ha
    have hs := parse_usize_not_star target ln hp
    simp [breakpointCommand, hs, hp, ha]
  · intro f hs hp hf ha
    simp [breakpointCommand, hs, hp, hf, ha]

/-- Witness for C10: `break 42` (line without address) and `break foo`
(function without entry address) both leave the list `[]` unchanged and
print nothing. -/
theorem breakpoint_unresolved_silent_witness :
    breakpointCommand ddNoAddr (['4', '2']) [] = ([], []) ∧
    breakpointCommand ddNoAddr (['f', 'o', 'o']) [] = ([], []) :=
  ⟨(breakpoint_unresolved_silent ddNoAddr (['4', '2']) []).1 42 (by decide) rfl,
   (breakpoint_unresolved_silent ddNoAddr (['f', 'o', 'o']) []).2 (['f', 'o', 'o'])
     (by decide) (by decide) rfl rfl⟩

end Deet
